import Mathlib

/-!
Shallow embedding of the data ingestion, cleaning and reconciliation
pipeline of `src/app.py` (a betting-analytics dashboard).

The embedding covers:
* the paginated fetcher `load_data` (offset/limit loop, lines 24-51);
* the date-column normalizer (`pd.to_datetime` with coerce + utc,
  lines 56-71);
* the deduplication steps (business-key pass and id pass,
  lines 73-86, and `remove_duplicate_bets`, lines 94-104);
* the "All Tables" reconciliation branch (lines 127-147);
* the timezone-coercing future-date filters (lines 177-190 and 362-376).

Rows are association lists from column names to dynamically typed
scalars, frames carry an explicit column list (mirroring
`pandas.DataFrame`), and the remote store is a list of `Response`
values (one per successive page request).
-/

namespace DcpDevBets

/-- A dynamically typed scalar as stored in one cell of a fetched row.
`tsAware`/`tsNaive` are timezone-aware/naive timestamps (pandas
`Timestamp`), `NaT` is the explicit "unparseable / missing" marker
produced by `pd.to_datetime` with coerce. -/
inductive Value where
  | str (s : String)
  | num (n : Int)
  | boolV (b : Bool)
  | null
  | tsAware (t : Int)
  | tsNaive (t : Int)
  | NaT
  deriving DecidableEq, Repr

/-- One fetched record: a mapping from column name to scalar. -/
abbrev Row := List (String × Value)

/-- An in-memory frame: a column list plus an ordered list of rows
(mirroring a `pandas.DataFrame`). -/
structure Frame where
  cols : List String
  rows : List Row
  deriving DecidableEq, Repr

/-- Look up the value of column `c` in a row (first matching entry). -/
def getCol : Row → String → Option Value
  | [], _ => none
  | (c, v) :: r, c₀ => if c = c₀ then some v else getCol r c₀

/-- Overwrite one row entry when its key is `c`. -/
def setEntry (c : String) (v : Value) : (String × Value) → (String × Value)
  | (k, w) => if k = c then (c, v) else (k, w)

/-- Set column `c` of a row to `v`: overwrite an existing entry in
place, or append the entry when the column is absent (the behaviour of
a pandas column assignment `df[c] = v` restricted to one row). -/
def setCol (r : Row) (c : String) (v : Value) : Row :=
  if r.any (fun p => p.1 = c) then r.map (setEntry c v)
  else r ++ [(c, v)]

/-- The key of a row with respect to a column subset, as compared by
`DataFrame.drop_duplicates(subset=...)`: the tuple of its values at
those columns (`none` for an absent cell, pandas `NaN`). -/
def keyOf (subset : List String) (r : Row) : List (Option Value) :=
  subset.map (getCol r)

/-- Worker for `dropDuplicates`: keep a row when its key has not been
seen yet, scanning in row order. -/
def dropDupAux (subset : List String) (seen : List (List (Option Value))) :
    List Row → List Row
  | [] => []
  | r :: rs =>
    if keyOf subset r ∈ seen then dropDupAux subset seen rs
    else r :: dropDupAux subset (keyOf subset r :: seen) rs

/-- `DataFrame.drop_duplicates` with a column subset and keep-first: drop every row
whose key tuple over `subset` already occurred earlier, keeping the
first occurrence in current row order. -/
def dropDuplicates (subset : List String) (rows : List Row) : List Row :=
  dropDupAux subset [] rows

/-- One HTTP response to a page request of the fetch loop: a 200
response carrying a JSON array of rows, or a non-success status. -/
inductive Response where
  | ok (data : List Row)
  | err (status : Nat)
  deriving DecidableEq, Repr

/-- The row-accumulation loop of `load_data` (lines 28-51): request
pages in order; on 200 with an empty body stop, otherwise append the
page and stop when it is shorter than `limit`; on a non-success status
stop (the error is only displayed).  The value is `all_data` at loop
exit; earlier full pages stay accumulated via the `++`. -/
def fetchPages (limit : Nat) : List Response → List Row
  | [] => []
  | Response.ok data :: rest =>
    if data.isEmpty then []
    else if data.length < limit then data
    else data ++ fetchPages limit rest
  | Response.err _ :: _ => []

/-- The number of page requests `load_data` issues against the same
response sequence. -/
def fetchRequests (limit : Nat) : List Response → Nat
  | [] => 0
  | Response.ok data :: rest =>
    if data.isEmpty then 1
    else if data.length < limit then 1
    else 1 + fetchRequests limit rest
  | Response.err _ :: _ => 1

/-- Split a table into the pages a limit/offset store serves: chunks
of `limit` rows, the last one possibly short. -/
def chunks (limit : Nat) (l : List Row) : List (List Row) :=
  if h : 0 < limit ∧ l ≠ [] then l.take limit :: chunks limit (l.drop limit)
  else []
termination_by l.length
decreasing_by
  simp only [List.length_drop]
  exact Nat.sub_lt (List.length_pos.mpr h.2) h.1

/-- The response sequence of a well-behaved remote store holding
`table`: each page in order, followed by an empty page for a reader
that paginates past the end. -/
def serverPages (limit : Nat) (table : List Row) : List Response :=
  (chunks limit table).map Response.ok ++ [Response.ok []]

/-- Split a character list at every dash, used by the modelled date
parser. -/
def splitOnDash : List Char → List (List Char)
  | [] => [[]]
  | c :: rest =>
    let r := splitOnDash rest
    if c = '-' then [] :: r
    else
      match r with
      | [] => [[c]]
      | h :: t => (c :: h) :: t

/-- Read a nonempty all-digit character list as a number. -/
def digitsVal (cs : List Char) : Option Nat :=
  if cs ≠ [] ∧ cs.all Char.isDigit then
    some (cs.foldl (fun n c => n * 10 + (c.toNat - 48)) 0)
  else none

/-- The string-parsing part of `pd.to_datetime`, modelled as an
ISO-8601 date parser (YYYY-MM-DD, encoded as one integer).  The claims
about normalization quantify over parse success and failure and do not
depend on the exact accepted grammar. -/
def parseDateString (s : String) : Option Int :=
  match splitOnDash s.toList with
  | [y, m, d] =>
    match digitsVal y, digitsVal m, digitsVal d with
    | some yn, some mn, some dn =>
      if 1 ≤ mn ∧ mn ≤ 12 ∧ 1 ≤ dn ∧ dn ≤ 31 then
        some (Int.ofNat (yn * 10000 + mn * 100 + dn))
      else none
    | _, _, _ => none
  | _ => none

/-- `pd.to_datetime(value, errors=coerce, utc=True)` on one cell:
strings are parsed (unparseable becomes `NaT`), naive timestamps are
localized to UTC, numbers are read as epoch offsets, and everything
else (missing, null, boolean) becomes `NaT`. -/
def toDatetimeUTC : Value → Value
  | Value.str s =>
    match parseDateString s with
    | some t => Value.tsAware t
    | none => Value.NaT
  | Value.tsAware t => Value.tsAware t
  | Value.tsNaive t => Value.tsAware t
  | Value.num n => Value.tsAware n
  | _ => Value.NaT

/-- The date-like column names `load_data` normalizes (line 57). -/
def dateCols : List String := ["start_time", "bet_logged", "created_at"]

/-- Normalize one column when present (lines 59-62): every cell of the
column, a missing cell counting as null, is replaced by its
`toDatetimeUTC` image. -/
def normalizeCol (f : Frame) (c : String) : Frame :=
  if c ∈ f.cols then
    { f with
      rows := f.rows.map (fun r =>
        setCol r c (toDatetimeUTC ((getCol r c).getD Value.null))) }
  else f

/-- The date-conversion loop of `load_data` (lines 57-62). -/
def normalize (f : Frame) : Frame :=
  dateCols.foldl normalizeCol f

/-- The five-column business key of `ev_daily_bets` (line 78). -/
def bkCols : List String := ["event", "start_time", "outcome", "stake", "odds"]

/-- The business-key deduplication pass of `load_data` (lines 76-80):
applies only to `ev_daily_bets` and only when all five key columns are
present. -/
def bkPass (tableName : String) (f : Frame) : Frame :=
  if tableName = "ev_daily_bets" ∧ (∀ c ∈ bkCols, c ∈ f.cols) then
    { f with rows := dropDuplicates bkCols f.rows }
  else f

/-- The id deduplication pass of `load_data` (lines 83-84): applies
whenever an id column is present. -/
def idPass (f : Frame) : Frame :=
  if "id" ∈ f.cols then { f with rows := dropDuplicates ["id"] f.rows }
  else f

/-- The whole deduplication step of `load_data` (lines 76-84): the
business-key pass runs first, the id pass second. -/
def dedupeStep (tableName : String) (f : Frame) : Frame :=
  idPass (bkPass tableName f)

/-- The cleaning `load_data` performs on a nonempty accumulated row
list: date normalization (lines 57-62) then deduplication
(lines 76-84). -/
def cleanFrame (tableName : String) (f : Frame) : Frame :=
  dedupeStep tableName (normalize f)

/-- `pd.DataFrame(all_data)`: the column list is the union of the row
keys in order of first appearance. -/
def mkFrame (rows : List Row) : Frame :=
  { cols := rows.foldl
      (fun acc r => acc ++ (r.map Prod.fst).filter (fun c => c ∉ acc)) [],
    rows := rows }

/-- `load_data(table_name)` (lines 17-92): accumulate pages, return
`None` when nothing was accumulated, otherwise the cleaned frame.  The
page size is a parameter; the source fixes it to 1000 (line 26). -/
def loadData (tableName : String) (limit : Nat)
    (responses : List Response) : Option Frame :=
  if (fetchPages limit responses).isEmpty then none
  else some (cleanFrame tableName (mkFrame (fetchPages limit responses)))

/-- `remove_duplicate_bets(df, table_name)` (lines 94-104). -/
def removeDuplicateBets (f : Frame) (tableName : String) : Frame :=
  if tableName = "ev_daily_bets" ∧ (∀ c ∈ bkCols, c ∈ f.cols) then
    { f with rows := dropDuplicates bkCols f.rows }
  else f

/-- A pandas column assignment `df[c] = v`: every row gets the value,
the column list gains `c` when new. -/
def addColumn (f : Frame) (c : String) (v : Value) : Frame :=
  { cols := if c ∈ f.cols then f.cols else f.cols ++ [c],
    rows := f.rows.map (fun r => setCol r c v) }

/-- `pd.concat([f, g], ignore_index=True)`: rows in order, columns the
union. -/
def concatFrames (f g : Frame) : Frame :=
  { cols := f.cols ++ g.cols.filter (fun c => c ∉ f.cols),
    rows := f.rows ++ g.rows }

/-- The tagging and concatenation of the All Tables branch
(lines 134-143, without the optional duplicate handling): tag each
frame with its table of origin and concatenate in fixed order. -/
def reconcile (f1 f2 f3 : Frame) : Frame :=
  concatFrames
    (concatFrames (addColumn f1 "data_source" (Value.str "betting_analytics"))
      (addColumn f2 "data_source" (Value.str "ev_daily_bets")))
    (addColumn f3 "data_source" (Value.str "matched_betting_bets"))

/-- The All Tables branch (lines 127-147): when any of the three loads
returned `None` the page stops with an error (`none` here); otherwise
the frames are tagged, the optional duplicate handling is applied to
the `ev_daily_bets` frame, and the three are concatenated. -/
def loadAllTables (r1 r2 r3 : Option Frame) (keepFirstOnly : Bool) :
    Option Frame :=
  match r1, r2, r3 with
  | some f1, some f2, some f3 =>
    let g1 := addColumn f1 "data_source" (Value.str "betting_analytics")
    let g2 := addColumn f2 "data_source" (Value.str "ev_daily_bets")
    let g3 := addColumn f3 "data_source" (Value.str "matched_betting_bets")
    let g2c := if keepFirstOnly then removeDuplicateBets g2 "ev_daily_bets"
               else g2
    some (concatFrames (concatFrames g1 g2c) g3)
  | _, _, _ => none

/-- One pandas comparison `value <= moment` inside a boolean mask:
defined (`some`) only between two timestamps of the same awareness or
with `NaT` on the left (which compares false); `none` models the
`TypeError` a mixed aware/naive or non-datetime comparison raises. -/
def tsLE : Value → Value → Option Bool
  | Value.tsAware a, Value.tsAware b => some (decide (a ≤ b))
  | Value.tsNaive a, Value.tsNaive b => some (decide (a ≤ b))
  | Value.NaT, Value.tsAware _ => some false
  | Value.NaT, Value.tsNaive _ => some false
  | _, _ => none

/-- One pandas comparison `value > moment`, same conventions as
`tsLE`. -/
def tsGT : Value → Value → Option Bool
  | Value.tsAware a, Value.tsAware b => some (decide (b < a))
  | Value.tsNaive a, Value.tsNaive b => some (decide (b < a))
  | Value.NaT, Value.tsAware _ => some false
  | Value.NaT, Value.tsNaive _ => some false
  | _, _ => none

/-- The values of column `c` down a frame, a missing cell counting as
null. -/
def colValues (f : Frame) (c : String) : List Value :=
  f.rows.map (fun r => (getCol r c).getD Value.null)

/-- Whether a cell fits in a datetime column of the given awareness
(`NaT` fits either). -/
def isDatetimeOf (aware : Bool) : Value → Bool
  | Value.tsAware _ => aware
  | Value.tsNaive _ => !aware
  | Value.NaT => true
  | _ => false

/-- The dtype-level awareness test of the source
(`is_datetime64_any_dtype` plus `.dt.tz is None`, lines 182-183 and
363-364): `some true` for an aware datetime column, `some false` for a
naive one (an all-`NaT` column counts as naive), `none` when the
column is not datetime-typed at all. -/
def colAwareness (f : Frame) (c : String) : Option Bool :=
  if (colValues f c).all (isDatetimeOf true)
      ∧ (colValues f c).any (fun v => match v with
          | Value.tsAware _ => true
          | _ => false) then some true
  else if (colValues f c).all (isDatetimeOf false) then some false
  else none

/-- `pd.Timestamp.now` coerced to the awareness of the column it will
be compared against (lines 183-185 and 364-369). -/
def coerceNow (aware : Bool) (now : Int) : Value :=
  if aware then Value.tsAware now else Value.tsNaive now

/-- A boolean-mask filter `df[df[c] <= cmpTime]` with exception
propagation: `none` as soon as one cell comparison is undefined. -/
def filterRowsLE (c : String) (cmpTime : Value) : List Row → Option (List Row)
  | [] => some []
  | r :: rs =>
    match tsLE ((getCol r c).getD Value.null) cmpTime,
        filterRowsLE c cmpTime rs with
    | some true, some out => some (r :: out)
    | some false, some out => some out
    | _, _ => none

/-- A boolean-mask filter `df[df[c] > cmpTime]` with exception
propagation. -/
def filterRowsGT (c : String) (cmpTime : Value) : List Row → Option (List Row)
  | [] => some []
  | r :: rs =>
    match tsGT ((getCol r c).getD Value.null) cmpTime,
        filterRowsGT c cmpTime rs with
    | some true, some out => some (r :: out)
    | some false, some out => some out
    | _, _ => none

/-- The cumulative-profit future-date filter (lines 362-372): when the
column is present and datetime-typed, the current moment is coerced to
the column awareness and rows strictly after it are filtered out;
otherwise the filter is skipped (the chart branch only warns). -/
def cumulativeFilter (f : Frame) (c : String) (now : Int) :
    Option (List Row) :=
  match (if c ∈ f.cols then colAwareness f c else none) with
  | some aware => filterRowsLE c (coerceNow aware now) f.rows
  | none => some f.rows

/-- The sidebar future-date check (lines 177-187): selects the rows
strictly after the (coerced) current moment.  The dtype test only
adjusts the moment; the comparison itself runs whenever the column is
present. -/
def futureRecords (f : Frame) (c : String) (now : Int) :
    Option (List Row) :=
  if c ∈ f.cols then
    match colAwareness f c with
    | some aware => filterRowsGT c (coerceNow aware now) f.rows
    | none => filterRowsGT c (Value.tsAware now) f.rows
  else some []

/-- The deduplication policies of the specification (section 4.3). -/
inductive Policy where
  | by_id
  | by_business_key
  | nopolicy
  deriving DecidableEq, Repr

/-- `dedupe(frame, policy)` of the specification, each policy realised
by the corresponding pass of the source (lines 76-84). -/
def dedupe (f : Frame) (p : Policy) : Frame :=
  match p with
  | Policy.by_id => idPass f
  | Policy.by_business_key =>
    if ∀ c ∈ bkCols, c ∈ f.cols then
      { f with rows := dropDuplicates bkCols f.rows }
    else f
  | Policy.nopolicy => f

/-- Modelled from the spec: the claimed composition order "by_id first,
then by_business_key", written to be compared with the order the source
actually uses. -/
def specIdThenBusinessKey (f : Frame) : Frame :=
  dedupe (dedupe f Policy.by_id) Policy.by_business_key

/-- Worker for `specOrDedupe`: one scan keeping a row only when neither
its id nor its business key occurred among the rows kept so far. -/
def specOrDedupeAux (seenIds seenKeys : List (List (Option Value))) :
    List Row → List Row
  | [] => []
  | r :: rs =>
    if keyOf ["id"] r ∈ seenIds ∨ keyOf bkCols r ∈ seenKeys then
      specOrDedupeAux seenIds seenKeys rs
    else r :: specOrDedupeAux (keyOf ["id"] r :: seenIds)
        (keyOf bkCols r :: seenKeys) rs

/-- Modelled from the spec: the claimed single-pass OR semantics, "a
row is dropped if its id repeats an earlier kept rows id or its
business-key tuple repeats an earlier kept rows tuple", written to be
compared with the two sequential passes of the source. -/
def specOrDedupe (f : Frame) : Frame :=
  { f with rows := specOrDedupeAux [] [] f.rows }

/-- Whether a cell is in the shape normalization promises: an aware
timestamp or the explicit `NaT` marker. -/
def cleanTSb : Value → Bool
  | Value.tsAware _ => true
  | Value.NaT => true
  | _ => false

/-- A row is clean at column `c` when the cell is present and in
normalized shape. -/
def cleanAt (c : String) (r : Row) : Prop :=
  ∃ v, getCol r c = some v ∧ cleanTSb v = true

/-- The total keep-test of the `<=` mask (false on `NaT` and on any
undefined comparison). -/
def keepLE (c : String) (cmpTime : Value) (r : Row) : Bool :=
  (tsLE ((getCol r c).getD Value.null) cmpTime).getD false

/-- The total keep-test of the `>` mask. -/
def keepGT (c : String) (cmpTime : Value) (r : Row) : Bool :=
  (tsGT ((getCol r c).getD Value.null) cmpTime).getD false

/-! Concrete sample data used by witnesses and counterexamples. -/

/-- A one-column sample row. -/
def sampleRow : Row := [("id", Value.num 1)]

/-- A one-row sample table. -/
def sampleTable : List Row := [sampleRow]

/-- A full page of 1000 rows. -/
def page1000 : List Row := List.replicate 1000 sampleRow

/-- A short page of 400 rows. -/
def page400 : List Row := List.replicate 400 sampleRow

/-- A sample row with id 1. -/
def rowId1 : Row := [("id", Value.num 1)]

/-- A sample row with id 2. -/
def rowId2 : Row := [("id", Value.num 2)]

/-- Sample bet row: id 1, business key K, bookmaker X. -/
def rowA : Row :=
  [("id", Value.num 1), ("event", Value.str "E"),
   ("start_time", Value.tsAware 7), ("outcome", Value.str "O"),
   ("stake", Value.num 100), ("odds", Value.num 2),
   ("bookmaker", Value.str "X")]

/-- Sample bet row: id 2, the same business key K, bookmaker Y. -/
def rowB : Row :=
  [("id", Value.num 2), ("event", Value.str "E"),
   ("start_time", Value.tsAware 7), ("outcome", Value.str "O"),
   ("stake", Value.num 100), ("odds", Value.num 2),
   ("bookmaker", Value.str "Y")]

/-- Sample bet row: id 2 again, a different business key L. -/
def rowC : Row :=
  [("id", Value.num 2), ("event", Value.str "E"),
   ("start_time", Value.tsAware 7), ("outcome", Value.str "P"),
   ("stake", Value.num 100), ("odds", Value.num 2),
   ("bookmaker", Value.str "Y")]

/-- Sample bet row: id 1, business key K. -/
def rowD : Row :=
  [("id", Value.num 1), ("event", Value.str "E"),
   ("start_time", Value.tsAware 7), ("outcome", Value.str "O"),
   ("stake", Value.num 100), ("odds", Value.num 2)]

/-- Sample bet row: id 1 again, a different business key L. -/
def rowE : Row :=
  [("id", Value.num 1), ("event", Value.str "E"),
   ("start_time", Value.tsAware 7), ("outcome", Value.str "P"),
   ("stake", Value.num 100), ("odds", Value.num 2)]

/-- Sample bet row: fresh id 3, business key L again. -/
def rowF : Row :=
  [("id", Value.num 3), ("event", Value.str "E"),
   ("start_time", Value.tsAware 7), ("outcome", Value.str "P"),
   ("stake", Value.num 100), ("odds", Value.num 2)]

/-- The column list of the sample `ev_daily_bets` frames. -/
def betCols : List String :=
  ["id", "event", "start_time", "outcome", "stake", "odds", "bookmaker"]

/-- Sample frame whose dedupe result depends on the order of the two
passes. -/
def frameOrder : Frame := { cols := betCols, rows := [rowA, rowB, rowC] }

/-- Sample frame on which sequential dedupe differs from single-pass
OR dedupe. -/
def frameOr : Frame :=
  { cols := ["id"] ++ bkCols, rows := [rowD, rowE, rowF] }

/-- The two-bookmaker scenario frame of the spec: identical business
key, bookmakers X and Y. -/
def frameTwoBookmakers : Frame := { cols := betCols, rows := [rowA, rowB] }

/-- Sample frame for the normalizer: a raw unparseable string, a
parseable date string, a null and a naive timestamp. -/
def frameDates : Frame :=
  { cols := ["start_time"],
    rows := [[("start_time", Value.str "bad")],
             [("start_time", Value.str "2024-01-15")],
             [("start_time", Value.null)],
             [("start_time", Value.tsNaive 3)]] }

/-- A row holding an aware timestamp in the past of moment 10. -/
def rowPast : Row := [("start_time", Value.tsAware 5)]

/-- A row holding the `NaT` marker. -/
def rowNaT : Row := [("start_time", Value.NaT)]

/-- Sample frame for the future-date filter: one past row, one `NaT`
row. -/
def frameFilter : Frame := { cols := ["start_time"], rows := [rowPast, rowNaT] }

/-! Lemmas about row access and update. -/

/-- When no entry of `r` has key `c`, lookup fails. -/
theorem getCol_eq_none (r : Row) (c : String)
    (h : ∀ p ∈ r, p.1 ≠ c) : getCol r c = none := by
  induction r with
  | nil => rfl
  | cons p r ih =>
    obtain ⟨a, b⟩ := p
    have ha := h (a, b) (List.mem_cons_self _ _)
    simp only [getCol]
    rw [if_neg ha]
    exact ih (fun q hq => h q (List.mem_cons_of_mem _ hq))

/-- Lookup distributes over append, preferring the left list. -/
theorem getCol_append (r s : Row) (c : String) :
    getCol (r ++ s) c =
      match getCol r c with
      | some v => some v
      | none => getCol s c := by
  induction r with
  | nil => rfl
  | cons p r ih =>
    obtain ⟨a, b⟩ := p
    by_cases h : a = c
    · simp [getCol, h]
    · simp [getCol, h, ih]

/-- Overwriting the entries of key `c` makes lookup of `c` return the
new value, as soon as one entry has that key. -/
theorem getCol_mapSet_self (r : Row) (c : String) (v : Value)
    (h : r.any (fun p => p.1 = c) = true) :
    getCol (r.map (setEntry c v)) c = some v := by
  induction r with
  | nil => simp at h
  | cons p r ih =>
    obtain ⟨a, b⟩ := p
    by_cases ha : a = c
    · subst ha
      have hhead : setEntry a v (a, b) = (a, v) := by simp [setEntry]
      rw [List.map_cons, hhead]
      simp [getCol]
    · simp only [List.any_cons, Bool.or_eq_true, decide_eq_true_eq] at h
      rcases h with h1 | h2
      · exact absurd h1 ha
      · have hhead : setEntry c v (a, b) = (a, b) := by simp [setEntry, ha]
        rw [List.map_cons, hhead]
        simp only [getCol]
        rw [if_neg ha]
        exact ih h2

/-- Overwriting the entries of key `c` leaves lookups of other keys
unchanged. -/
theorem getCol_mapSet_ne (r : Row) (c c₀ : String) (v : Value)
    (h : c ≠ c₀) :
    getCol (r.map (setEntry c v)) c₀ = getCol r c₀ := by
  induction r with
  | nil => rfl
  | cons p r ih =>
    obtain ⟨a, b⟩ := p
    by_cases ha : a = c
    · subst ha
      have hhead : setEntry a v (a, b) = (a, v) := by simp [setEntry]
      rw [List.map_cons, hhead]
      simp only [getCol]
      rw [if_neg h, if_neg h]
      exact ih
    · have hhead : setEntry c v (a, b) = (a, b) := by simp [setEntry, ha]
      rw [List.map_cons, hhead]
      simp only [getCol]
      by_cases hc : a = c₀
      · rw [if_pos hc, if_pos hc]
      · rw [if_neg hc, if_neg hc]
        exact ih

/-- Setting a column then reading it back gives the written value. -/
theorem getCol_setCol_self (r : Row) (c : String) (v : Value) :
    getCol (setCol r c v) c = some v := by
  by_cases hany : r.any (fun p => p.1 = c) = true
  · rw [setCol, if_pos hany]
    exact getCol_mapSet_self r c v hany
  · rw [setCol, if_neg hany]
    have hnone : getCol r c = none := by
      apply getCol_eq_none
      intro p hp hpc
      exact hany (List.any_eq_true.mpr ⟨p, hp, by simpa using hpc⟩)
    rw [getCol_append, hnone]
    simp [getCol]

/-- Setting one column leaves lookups of other columns unchanged. -/
theorem getCol_setCol_ne (r : Row) (c c₀ : String) (v : Value)
    (h : c ≠ c₀) : getCol (setCol r c v) c₀ = getCol r c₀ := by
  by_cases hany : r.any (fun p => p.1 = c) = true
  · rw [setCol, if_pos hany]
    exact getCol_mapSet_ne r c c₀ v h
  · rw [setCol, if_neg hany, getCol_append]
    cases hg : getCol r c₀ with
    | some w => rfl
    | none => simp [getCol, h]

/-! Lemmas about keep-first deduplication. -/

/-- The deduplicated list is a sublist of the input. -/
theorem dropDupAux_sublist (S : List String)
    (seen : List (List (Option Value))) (l : List Row) :
    (dropDupAux S seen l).Sublist l := by
  induction l generalizing seen with
  | nil => simp [dropDupAux]
  | cons r rs ih =>
    simp only [dropDupAux]
    split
    · exact (ih seen).cons r
    · exact (ih _).cons₂ r

/-- No surviving row has a key that was already in `seen`. -/
theorem keyOf_not_mem_seen (S : List String)
    (seen : List (List (Option Value))) (l : List Row) :
    ∀ r ∈ dropDupAux S seen l, keyOf S r ∉ seen := by
  induction l generalizing seen with
  | nil => simp [dropDupAux]
  | cons a rs ih =>
    simp only [dropDupAux]
    split
    · exact ih seen
    · rename_i hna
      intro r hr
      rcases List.mem_cons.mp hr with rfl | hr2
      · exact hna
      · intro hmem
        exact ih (keyOf S a :: seen) r hr2 (List.mem_cons_of_mem _ hmem)

/-- The keys of the surviving rows are pairwise distinct. -/
theorem dropDupAux_keys_nodup (S : List String)
    (seen : List (List (Option Value))) (l : List Row) :
    ((dropDupAux S seen l).map (keyOf S)).Nodup := by
  induction l generalizing seen with
  | nil => simp [dropDupAux]
  | cons a rs ih =>
    simp only [dropDupAux]
    split
    · exact ih seen
    · simp only [List.map_cons, List.nodup_cons]
      refine ⟨?_, ih _⟩
      intro hmem
      rcases List.mem_map.mp hmem with ⟨r, hr, hk⟩
      exact keyOf_not_mem_seen S _ _ r hr (by rw [hk]; exact List.mem_cons_self _ _)

/-- On a list whose keys are already distinct and avoid `seen`, the
scan keeps everything. -/
theorem dropDupAux_eq_self (S : List String)
    (seen : List (List (Option Value))) (l : List Row)
    (hnd : (l.map (keyOf S)).Nodup)
    (hdisj : ∀ r ∈ l, keyOf S r ∉ seen) : dropDupAux S seen l = l := by
  induction l generalizing seen with
  | nil => simp [dropDupAux]
  | cons a rs ih =>
    simp only [List.map_cons, List.nodup_cons] at hnd
    simp only [dropDupAux]
    rw [if_neg (hdisj a (List.mem_cons_self a rs))]
    congr 1
    refine ih (keyOf S a :: seen) hnd.2 ?_
    intro r hr hmem
    rcases List.mem_cons.mp hmem with heq | hmem2
    · exact hnd.1 (heq ▸ List.mem_map_of_mem (keyOf S) hr)
    · exact hdisj r (List.mem_cons_of_mem a hr) hmem2

/-- `dropDuplicates` output is a sublist of its input. -/
theorem dropDuplicates_sublist (S : List String) (l : List Row) :
    (dropDuplicates S l).Sublist l :=
  dropDupAux_sublist S [] l

/-- `dropDuplicates` output has pairwise distinct keys. -/
theorem dropDuplicates_keys_nodup (S : List String) (l : List Row) :
    ((dropDuplicates S l).map (keyOf S)).Nodup :=
  dropDupAux_keys_nodup S [] l

/-- `dropDuplicates` keeps a list whose keys are already distinct. -/
theorem dropDuplicates_eq_self (S : List String) (l : List Row)
    (hnd : (l.map (keyOf S)).Nodup) : dropDuplicates S l = l :=
  dropDupAux_eq_self S [] l hnd (fun r _ => List.not_mem_nil _)

/-- `dropDuplicates` is idempotent. -/
theorem dropDuplicates_idem (S : List String) (l : List Row) :
    dropDuplicates S (dropDuplicates S l) = dropDuplicates S l :=
  dropDuplicates_eq_self S _ (dropDuplicates_keys_nodup S l)

/-- `dropDuplicates` keeps at least the first row. -/
theorem dropDuplicates_ne_nil (S : List String) (l : List Row)
    (h : l ≠ []) : dropDuplicates S l ≠ [] := by
  cases l with
  | nil => exact absurd rfl h
  | cons a rs => simp [dropDuplicates, dropDupAux]

/-- Once a key is in `seen`, no surviving row carries it. -/
theorem dropDupAux_filter_of_seen (S : List String)
    (k : List (Option Value)) (seen : List (List (Option Value)))
    (l : List Row) (hk : k ∈ seen) :
    (dropDupAux S seen l).filter (fun r => decide (keyOf S r = k)) = [] := by
  induction l generalizing seen with
  | nil => simp [dropDupAux]
  | cons a rs ih =>
    simp only [dropDupAux]
    split
    · exact ih seen hk
    · rename_i hna
      rw [List.filter_cons_of_neg]
      · exact ih (keyOf S a :: seen) (List.mem_cons_of_mem _ hk)
      · simp only [decide_eq_true_eq]
        intro heq
        exact hna (heq ▸ hk)

/-- The first row bearing a key is the only survivor with that key:
among all rows sharing the key of `a`, the scan keeps exactly the
first occurrence. -/
theorem dropDupAux_filter_first (S : List String)
    (k : List (Option Value)) (seen : List (List (Option Value)))
    (pre rest : List Row) (a : Row)
    (hk : keyOf S a = k) (hks : k ∉ seen)
    (hpre : ∀ r ∈ pre, keyOf S r ≠ k) :
    (dropDupAux S seen (pre ++ a :: rest)).filter
      (fun r => decide (keyOf S r = k)) = [a] := by
  induction pre generalizing seen with
  | nil =>
    simp only [List.nil_append, dropDupAux]
    rw [if_neg (hk ▸ hks)]
    rw [List.filter_cons_of_pos (by simp [hk])]
    rw [dropDupAux_filter_of_seen S k (keyOf S a :: seen) rest
      (hk ▸ List.mem_cons_self _ _)]
  | cons p pre ih =>
    have hpre2 : ∀ r ∈ pre, keyOf S r ≠ k :=
      fun r hr => hpre r (List.mem_cons_of_mem p hr)
    simp only [List.cons_append, dropDupAux]
    split
    · exact ih seen hks hpre2
    · rw [List.filter_cons_of_neg (by simp [hpre p (List.mem_cons_self p pre)])]
      refine ih (keyOf S p :: seen) ?_ hpre2
      intro hmem
      rcases List.mem_cons.mp hmem with heq | hmem2
      · exact hpre p (List.mem_cons_self p pre) heq.symm
      · exact hks hmem2

/-! Lemmas about the paginated fetcher. -/

/-- Fetching the pages a well-behaved store serves for `table`
accumulates exactly `table`: the loop terminates at the first short or
empty page, and what it accumulated is the whole table. -/
theorem fetchPages_serverPages (limit : Nat) (hl : 0 < limit)
    (table : List Row) :
    fetchPages limit (serverPages limit table) = table := by
  by_cases ht : table = []
  · subst ht
    rw [serverPages, chunks]
    simp [fetchPages]
  · rw [serverPages, chunks, dif_pos ⟨hl, ht⟩]
    simp only [List.map_cons, List.cons_append]
    rw [fetchPages]
    have htake : (table.take limit).isEmpty = false := by
      rw [List.isEmpty_eq_false]
      simp only [ne_eq, List.take_eq_nil_iff]
      push_neg
      exact ⟨by omega, ht⟩
    rw [htake]
    simp only [Bool.false_eq_true, if_false]
    by_cases hshort : (table.take limit).length < limit
    · rw [if_pos hshort]
      have : table.length < limit := by
        rw [List.length_take] at hshort
        omega
      exact List.take_of_length_le (Nat.le_of_lt this)
    · rw [if_neg hshort]
      have ih := fetchPages_serverPages limit hl (table.drop limit)
      rw [serverPages] at ih
      rw [ih]
      exact List.take_append_drop limit table
termination_by table.length
decreasing_by
  simp only [List.length_drop]
  exact Nat.sub_lt (List.length_pos.mpr ht) hl

/-- The page contents a well-behaved store serves concatenate, in page
order, to the table itself. -/
theorem chunks_flatten (limit : Nat) (hl : 0 < limit) (table : List Row) :
    (chunks limit table).flatten = table := by
  by_cases ht : table = []
  · subst ht; rw [chunks]; simp
  · rw [chunks, dif_pos ⟨hl, ht⟩, List.flatten_cons,
      chunks_flatten limit hl (table.drop limit)]
    exact List.take_append_drop limit table
termination_by table.length
decreasing_by
  simp only [List.length_drop]
  exact Nat.sub_lt (List.length_pos.mpr ht) hl

/-- The [1000, 1000, 400] scenario, for any continuation of the
response sequence: all 2400 rows are returned in page order and
exactly three requests are issued. -/
theorem fetch_scenario (a b c : List Row) (rest : List Response)
    (ha : a.length = 1000) (hb : b.length = 1000) (hc : c.length = 400) :
    fetchPages 1000
        (Response.ok a :: Response.ok b :: Response.ok c :: rest)
      = a ++ b ++ c ∧
    fetchRequests 1000
        (Response.ok a :: Response.ok b :: Response.ok c :: rest)
      = 3 := by
  have hea : a.isEmpty = false := by
    rw [List.isEmpty_eq_false]
    intro h
    rw [h] at ha
    simp at ha
  have heb : b.isEmpty = false := by
    rw [List.isEmpty_eq_false]
    intro h
    rw [h] at hb
    simp at hb
  have hec : c.isEmpty = false := by
    rw [List.isEmpty_eq_false]
    intro h
    rw [h] at hc
    simp at hc
  constructor
  · rw [fetchPages, hea]
    simp only [Bool.false_eq_true, if_false]
    rw [if_neg (by omega), fetchPages, heb]
    simp only [Bool.false_eq_true, if_false]
    rw [if_neg (by omega), fetchPages, hec]
    simp only [Bool.false_eq_true, if_false]
    rw [if_pos (by omega), List.append_assoc]
  · rw [fetchRequests, hea]
    simp only [Bool.false_eq_true, if_false]
    rw [if_neg (by omega), fetchRequests, heb]
    simp only [Bool.false_eq_true, if_false]
    rw [if_neg (by omega), fetchRequests, hec]
    simp only [Bool.false_eq_true, if_false]
    rw [if_pos (by omega)]

/-! Lemmas about the frame-level cleaning passes. -/

/-- The business-key pass does not change the column list. -/
theorem bkPass_cols (t : String) (f : Frame) : (bkPass t f).cols = f.cols := by
  unfold bkPass
  split <;> rfl

/-- The id pass does not change the column list. -/
theorem idPass_cols (f : Frame) : (idPass f).cols = f.cols := by
  unfold idPass
  split <;> rfl

/-- The id pass is idempotent. -/
theorem idPass_idem (f : Frame) : idPass (idPass f) = idPass f := by
  by_cases h : "id" ∈ f.cols
  · simp only [idPass, if_pos h, dropDuplicates_idem]
  · simp only [idPass, if_neg h]

/-- The business-key pass is idempotent. -/
theorem bkPass_idem (t : String) (f : Frame) :
    bkPass t (bkPass t f) = bkPass t f := by
  by_cases h : t = "ev_daily_bets" ∧ ∀ c ∈ bkCols, c ∈ f.cols
  · simp only [bkPass, if_pos h, dropDuplicates_idem]
  · simp only [bkPass, if_neg h]

/-- The business-key pass keeps the result of the two-pass dedupe
fixed: after the id pass prunes the business-key-deduplicated rows,
their business keys are still pairwise distinct. -/
theorem bkPass_fixes_dedupeStep (t : String) (f : Frame) :
    bkPass t (idPass (bkPass t f)) = idPass (bkPass t f) := by
  by_cases hb : t = "ev_daily_bets" ∧ ∀ c ∈ bkCols, c ∈ f.cols
  · by_cases hid : "id" ∈ f.cols
    · simp only [bkPass, idPass, if_pos hb, if_pos hid]
      have h1 : ((dropDuplicates bkCols f.rows).map (keyOf bkCols)).Nodup :=
        dropDuplicates_keys_nodup _ _
      have h2 : (dropDuplicates ["id"] (dropDuplicates bkCols f.rows)).Sublist
          (dropDuplicates bkCols f.rows) := dropDuplicates_sublist _ _
      have h3 := dropDuplicates_eq_self bkCols _ (h1.sublist (h2.map (keyOf bkCols)))
      rw [h3]
    · simp only [bkPass, idPass, if_pos hb, if_neg hid, dropDuplicates_idem]
  · simp only [bkPass, idPass, if_neg hb]
    split <;> simp only [bkPass, if_neg hb]

/-- The combined dedupe step of `load_data` is idempotent. -/
theorem dedupeStep_idem (t : String) (f : Frame) :
    dedupeStep t (dedupeStep t f) = dedupeStep t f := by
  unfold dedupeStep
  rw [bkPass_fixes_dedupeStep t f]
  exact idPass_idem (bkPass t f)

/-- Each single dedupe policy is idempotent. -/
theorem dedupe_policy_idem (f : Frame) (p : Policy) :
    dedupe (dedupe f p) p = dedupe f p := by
  cases p with
  | by_id => exact idPass_idem f
  | by_business_key =>
    by_cases h : ∀ c ∈ bkCols, c ∈ f.cols
    · simp only [dedupe, if_pos h, dropDuplicates_idem]
    · simp only [dedupe, if_neg h]
  | nopolicy => rfl

/-- The business-key pass keeps a nonempty frame nonempty. -/
theorem bkPass_rows_ne_nil (t : String) (f : Frame) (h : f.rows ≠ []) :
    (bkPass t f).rows ≠ [] := by
  unfold bkPass
  split
  · exact dropDuplicates_ne_nil _ _ h
  · exact h

/-- The id pass keeps a nonempty frame nonempty. -/
theorem idPass_rows_ne_nil (f : Frame) (h : f.rows ≠ []) :
    (idPass f).rows ≠ [] := by
  unfold idPass
  split
  · exact dropDuplicates_ne_nil _ _ h
  · exact h

/-! Lemmas about the normalizer. -/

/-- Every cell image of the conversion is an aware timestamp or
`NaT`. -/
theorem cleanTSb_toDatetimeUTC (v : Value) :
    cleanTSb (toDatetimeUTC v) = true := by
  cases v with
  | str s => cases h : parseDateString s <;> simp [toDatetimeUTC, h, cleanTSb]
  | num n => rfl
  | boolV b => rfl
  | null => rfl
  | tsAware t => rfl
  | tsNaive t => rfl
  | NaT => rfl

/-- Normalizing a column does not change the column list. -/
theorem normalizeCol_cols (f : Frame) (c : String) :
    (normalizeCol f c).cols = f.cols := by
  unfold normalizeCol
  split <;> rfl

/-- Normalizing a column does not change the row count. -/
theorem normalizeCol_rows_length (f : Frame) (c : String) :
    (normalizeCol f c).rows.length = f.rows.length := by
  unfold normalizeCol
  split
  · exact List.length_map _ _
  · rfl

/-- The normalizer does not change the row count. -/
theorem normalize_rows_length (f : Frame) :
    (normalize f).rows.length = f.rows.length := by
  have hnf : normalize f
      = normalizeCol (normalizeCol (normalizeCol f "start_time")
          "bet_logged") "created_at" := rfl
  rw [hnf, normalizeCol_rows_length, normalizeCol_rows_length,
    normalizeCol_rows_length]

/-- After normalizing a present column, every row is clean there. -/
theorem normalizeCol_clean (f : Frame) (c : String) (hc : c ∈ f.cols) :
    ∀ r ∈ (normalizeCol f c).rows, cleanAt c r := by
  unfold normalizeCol
  rw [if_pos hc]
  intro r hr
  rcases List.mem_map.mp hr with ⟨r₀, _, rfl⟩
  exact ⟨_, getCol_setCol_self r₀ c _, cleanTSb_toDatetimeUTC _⟩

/-- Normalizing one column preserves cleanliness at any other
column. -/
theorem normalizeCol_preserves (f : Frame) (c c₀ : String) (h : c ≠ c₀)
    (hall : ∀ r ∈ f.rows, cleanAt c₀ r) :
    ∀ r ∈ (normalizeCol f c).rows, cleanAt c₀ r := by
  unfold normalizeCol
  split
  · intro r hr
    rcases List.mem_map.mp hr with ⟨r₀, hr₀, rfl⟩
    rcases hall r₀ hr₀ with ⟨v, hv, hcl⟩
    exact ⟨v, (getCol_setCol_ne r₀ c c₀ _ h).trans hv, hcl⟩
  · exact hall

/-! Lemmas about the timezone-coercing filters. -/

/-- A cell fitting the column dtype compares against the coerced
moment without raising, under `<=`. -/
theorem tsLE_defined (aware : Bool) (now : Int) (v : Value)
    (hv : isDatetimeOf aware v = true) :
    tsLE v (coerceNow aware now) ≠ none := by
  cases v <;> cases aware <;> simp_all [isDatetimeOf, tsLE, coerceNow]

/-- A cell fitting the column dtype compares against the coerced
moment without raising, under `>`. -/
theorem tsGT_defined (aware : Bool) (now : Int) (v : Value)
    (hv : isDatetimeOf aware v = true) :
    tsGT v (coerceNow aware now) ≠ none := by
  cases v <;> cases aware <;> simp_all [isDatetimeOf, tsGT, coerceNow]

/-- When the dtype test classifies a column, every cell fits that
classification. -/
theorem colAwareness_all (f : Frame) (c : String) (aware : Bool)
    (h : colAwareness f c = some aware) :
    ∀ v ∈ colValues f c, isDatetimeOf aware v = true := by
  unfold colAwareness at h
  split_ifs at h with h1 h2
  · cases h
    exact fun v hv => List.all_eq_true.mp h1.1 v hv
  · cases h
    exact fun v hv => List.all_eq_true.mp h2 v hv

/-- The value a row contributes to its column value list. -/
theorem colValues_mem (f : Frame) (c : String) (r : Row)
    (hr : r ∈ f.rows) : (getCol r c).getD Value.null ∈ colValues f c :=
  List.mem_map_of_mem _ hr

/-- When no cell comparison raises, the `<=` mask equals the total
keep-first filter. -/
theorem filterRowsLE_eq (c : String) (cmpTime : Value) (l : List Row)
    (h : ∀ r ∈ l, tsLE ((getCol r c).getD Value.null) cmpTime ≠ none) :
    filterRowsLE c cmpTime l = some (l.filter (keepLE c cmpTime)) := by
  induction l with
  | nil => simp [filterRowsLE]
  | cons r rs ih =>
    have hr := h r (List.mem_cons_self r rs)
    have hrest := ih (fun x hx => h x (List.mem_cons_of_mem r hx))
    cases htl : tsLE ((getCol r c).getD Value.null) cmpTime with
    | none => exact absurd htl hr
    | some b =>
      rw [filterRowsLE, htl, hrest]
      cases b
      · rw [List.filter_cons_of_neg (by simp [keepLE, htl])]
      · rw [List.filter_cons_of_pos (by simp [keepLE, htl])]

/-- When no cell comparison raises, the `>` mask equals the total
keep-first filter. -/
theorem filterRowsGT_eq (c : String) (cmpTime : Value) (l : List Row)
    (h : ∀ r ∈ l, tsGT ((getCol r c).getD Value.null) cmpTime ≠ none) :
    filterRowsGT c cmpTime l = some (l.filter (keepGT c cmpTime)) := by
  induction l with
  | nil => simp [filterRowsGT]
  | cons r rs ih =>
    have hr := h r (List.mem_cons_self r rs)
    have hrest := ih (fun x hx => h x (List.mem_cons_of_mem r hx))
    cases htl : tsGT ((getCol r c).getD Value.null) cmpTime with
    | none => exact absurd htl hr
    | some b =>
      rw [filterRowsGT, htl, hrest]
      cases b
      · rw [List.filter_cons_of_neg (by simp [keepGT, htl])]
      · rw [List.filter_cons_of_pos (by simp [keepGT, htl])]

/-- For a datetime-typed cell, being dropped by the `<=` mask means
being strictly in the future or being `NaT`. -/
theorem keepLE_false_iff (aware : Bool) (now : Int) (v : Value)
    (hv : isDatetimeOf aware v = true) :
    ((tsLE v (coerceNow aware now)).getD false = false
      ↔ ((tsGT v (coerceNow aware now)).getD false = true
          ∨ v = Value.NaT)) := by
  cases v <;> cases aware <;>
    simp_all [isDatetimeOf, tsLE, tsGT, coerceNow]

/-! The claims. -/

/-- C1: for every table served page-wise with any positive page limit
(the source defaults to 1000), the fetch loop of `load_data`
terminates and accumulates exactly the concatenation of all page
contents in page order; for pages of sizes 1000, 1000 and 400 with
limit 1000 it returns exactly the 2400 rows using exactly 3 requests
and never issues a fourth, whatever responses would follow. -/
theorem load_data_pagination_exact :
    (∀ (limit : Nat) (table : List Row), 0 < limit →
       fetchPages limit (serverPages limit table) = table ∧
       (chunks limit table).flatten = table) ∧
    (∀ (a b c : List Row) (rest : List Response),
       a.length = 1000 → b.length = 1000 → c.length = 400 →
       fetchPages 1000
           (Response.ok a :: Response.ok b :: Response.ok c :: rest)
         = a ++ b ++ c ∧
       (a ++ b ++ c).length = 2400 ∧
       fetchRequests 1000
           (Response.ok a :: Response.ok b :: Response.ok c :: rest)
         = 3) :=
  ⟨fun limit table hl =>
    ⟨fetchPages_serverPages limit hl table, chunks_flatten limit hl table⟩,
   fun a b c rest ha hb hc =>
    ⟨(fetch_scenario a b c rest ha hb hc).1,
     by simp [ha, hb, hc],
     (fetch_scenario a b c rest ha hb hc).2⟩⟩

/-- Witness for C1 at concrete inputs: a 3-row table fetched with
limit 2, and the concrete [1000, 1000, 400] page sequence. -/
theorem load_data_pagination_exact_witness :
    fetchPages 2 (serverPages 2 [rowId1, rowId2, sampleRow])
      = [rowId1, rowId2, sampleRow] ∧
    fetchRequests 1000
        [Response.ok page1000, Response.ok page1000, Response.ok page400]
      = 3 :=
  ⟨(load_data_pagination_exact.1 2 [rowId1, rowId2, sampleRow]
      (by decide)).1,
   (load_data_pagination_exact.2 page1000 page1000 page400 []
      (by rw [page1000]; exact List.length_replicate _ _)
      (by rw [page1000]; exact List.length_replicate _ _)
      (by rw [page400]; exact List.length_replicate _ _)).2.2⟩

/-- C2 (counterexample): a full first page of two rows followed by a
500 response.  The claim requires the fetch to yield no rows, but
`load_data` returns the two accumulated rows as a frame. -/
theorem load_data_partial_result_returned :
    loadData "betting_analytics" 2
        [Response.ok [rowId1, rowId2], Response.err 500]
      = some { cols := ["id"], rows := [rowId1, rowId2] } := by
  decide

/-- C2 (amended): on a non-success status mid-pagination the loop
stops issuing requests, but the rows accumulated from earlier
successful pages are kept, cleaned and returned as a partial frame
rather than discarded; only a failure before any row was accumulated
yields `None`. -/
theorem load_data_partial_on_error (tableName : String) (limit : Nat)
    (data : List Row) (status : Nat) (rest : List Response)
    (hlen : data.length = limit) (hpos : 0 < limit) :
    loadData tableName limit
        (Response.ok data :: Response.err status :: rest)
      = some (cleanFrame tableName (mkFrame data)) ∧
    fetchRequests limit
        (Response.ok data :: Response.err status :: rest) = 2 := by
  have hne : data.isEmpty = false := by
    rw [List.isEmpty_eq_false]
    intro h
    rw [h] at hlen
    simp at hlen
    omega
  have hfetch : fetchPages limit
      (Response.ok data :: Response.err status :: rest) = data := by
    rw [fetchPages, hne]
    simp only [Bool.false_eq_true, if_false]
    rw [if_neg (by omega), fetchPages]
    simp
  constructor
  · simp only [loadData, hfetch, hne]
    simp
  · rw [fetchRequests, hne]
    simp only [Bool.false_eq_true, if_false]
    rw [if_neg (by omega), fetchRequests]

/-- Witness for C2 (amended) at a concrete input: limit 2, one full
page, then a 500. -/
theorem load_data_partial_on_error_witness :
    loadData "betting_analytics" 2
        [Response.ok [rowId1, rowId2], Response.err 500]
      = some (cleanFrame "betting_analytics" (mkFrame [rowId1, rowId2])) :=
  (load_data_partial_on_error "betting_analytics" 2 [rowId1, rowId2] 500 []
    (by decide) (by decide)).1

/-- C3 (counterexample): on `frameOrder` the source (business-key pass
first, then id pass) keeps two rows while "by_id first, then
by_business_key" keeps one; on `frameOr` the source keeps one row
while the single-pass OR semantics over kept rows keeps two. -/
theorem dedupe_order_or_semantics_refuted :
    dedupeStep "ev_daily_bets" frameOrder ≠ specIdThenBusinessKey frameOrder ∧
    dedupeStep "ev_daily_bets" frameOr ≠ specOrDedupe frameOr :=
  ⟨by decide, by decide⟩

/-- C3 (amended): when both keys apply, the source applies
`by_business_key` first and `by_id` second; the combined effect is the
sequential composition of the two keep-first passes — in the kept rows
no id repeats and no business-key tuple repeats, and every kept row is
an input row in input order. -/
theorem dedupe_business_key_then_id (f : Frame)
    (h5 : ∀ c ∈ bkCols, c ∈ f.cols) (hid : "id" ∈ f.cols) :
    (dedupeStep "ev_daily_bets" f).rows
        = dropDuplicates ["id"] (dropDuplicates bkCols f.rows) ∧
    ((dedupeStep "ev_daily_bets" f).rows.map (keyOf ["id"])).Nodup ∧
    ((dedupeStep "ev_daily_bets" f).rows.map (keyOf bkCols)).Nodup ∧
    (dedupeStep "ev_daily_bets" f).rows.Sublist f.rows := by
  have hbk : bkPass "ev_daily_bets" f
      = { f with rows := dropDuplicates bkCols f.rows } := by
    unfold bkPass
    rw [if_pos ⟨rfl, h5⟩]
  have hrows : (dedupeStep "ev_daily_bets" f).rows
      = dropDuplicates ["id"] (dropDuplicates bkCols f.rows) := by
    unfold dedupeStep
    rw [hbk]
    unfold idPass
    rw [if_pos (show "id" ∈
      ({ f with rows := dropDuplicates bkCols f.rows } : Frame).cols from hid)]
  refine ⟨hrows, ?_, ?_, ?_⟩
  · rw [hrows]
    exact dropDuplicates_keys_nodup _ _
  · rw [hrows]
    exact (dropDuplicates_keys_nodup bkCols f.rows).sublist
      ((dropDuplicates_sublist _ _).map _)
  · rw [hrows]
    exact (dropDuplicates_sublist _ _).trans (dropDuplicates_sublist _ _)

/-- Witness for C3 (amended) at a concrete frame. -/
theorem dedupe_business_key_then_id_witness :
    (dedupeStep "ev_daily_bets" frameOrder).rows
      = dropDuplicates ["id"] (dropDuplicates bkCols frameOrder.rows) :=
  (dedupe_business_key_then_id frameOrder (by decide) (by decide)).1

/-- C4: deduplication is idempotent — for each single policy of the
spec and for the combined two-pass step of `load_data`, applying it
twice equals applying it once. -/
theorem dedupe_idempotent :
    (∀ (f : Frame) (p : Policy), dedupe (dedupe f p) p = dedupe f p) ∧
    (∀ (t : String) (f : Frame),
      dedupeStep t (dedupeStep t f) = dedupeStep t f) :=
  ⟨fun f p => dedupe_policy_idem f p, fun t f => dedupeStep_idem t f⟩

/-- C5: in a frame with the five business-key columns, among all rows
sharing the business key of the first row `a` bearing it (in
particular two rows identical on the key but differing in bookmaker),
`remove_duplicate_bets` keeps exactly `a`, the first occurrence in
current row order. -/
theorem business_key_keeps_first_occurrence (f : Frame)
    (pre rest : List Row) (a : Row)
    (hcols : ∀ c ∈ bkCols, c ∈ f.cols)
    (hrows : f.rows = pre ++ a :: rest)
    (hpre : ∀ r ∈ pre, keyOf bkCols r ≠ keyOf bkCols a) :
    ((removeDuplicateBets f "ev_daily_bets").rows).filter
      (fun r => decide (keyOf bkCols r = keyOf bkCols a)) = [a] := by
  unfold removeDuplicateBets
  rw [if_pos ⟨rfl, hcols⟩]
  show (dropDuplicates bkCols f.rows).filter _ = [a]
  rw [hrows]
  exact dropDupAux_filter_first bkCols (keyOf bkCols a) [] pre rest a rfl
    (List.not_mem_nil _) hpre

/-- Witness for C5: the spec scenario, two rows identical on the
business key differing only in bookmaker. -/
theorem business_key_keeps_first_occurrence_witness :
    ((removeDuplicateBets frameTwoBookmakers "ev_daily_bets").rows).filter
      (fun r => decide (keyOf bkCols r = keyOf bkCols rowA)) = [rowA] :=
  business_key_keeps_first_occurrence frameTwoBookmakers [] [rowB] rowA
    (by decide) rfl (by decide)

/-- C6: the reconciler tags every row of each input frame with its
table of origin, concatenates the three frames in the fixed order
preserving each frames internal row order, and the combined row count
is exactly the sum of the three input row counts. -/
theorem reconcile_tags_and_concatenates (f1 f2 f3 : Frame) :
    (reconcile f1 f2 f3).rows
      = f1.rows.map
          (fun r => setCol r "data_source" (Value.str "betting_analytics"))
        ++ f2.rows.map
          (fun r => setCol r "data_source" (Value.str "ev_daily_bets"))
        ++ f3.rows.map
          (fun r => setCol r "data_source" (Value.str "matched_betting_bets")) ∧
    (reconcile f1 f2 f3).rows.length
      = f1.rows.length + f2.rows.length + f3.rows.length ∧
    (∀ r : Row,
      getCol (setCol r "data_source" (Value.str "betting_analytics"))
        "data_source" = some (Value.str "betting_analytics")) ∧
    (∀ r : Row,
      getCol (setCol r "data_source" (Value.str "ev_daily_bets"))
        "data_source" = some (Value.str "ev_daily_bets")) ∧
    (∀ r : Row,
      getCol (setCol r "data_source" (Value.str "matched_betting_bets"))
        "data_source" = some (Value.str "matched_betting_bets")) := by
  refine ⟨rfl, ?_, fun r => getCol_setCol_self r _ _,
    fun r => getCol_setCol_self r _ _, fun r => getCol_setCol_self r _ _⟩
  simp only [reconcile, concatFrames, addColumn, List.length_append,
    List.length_map]

/-- C7: in All Tables mode a combined frame is produced exactly when
all three loads succeeded; when any is `None` the branch stops with an
error instead of combining the remaining tables, and on success the
combined frame is the tagged concatenation. -/
theorem all_tables_all_or_nothing (r1 r2 r3 : Option Frame) (b : Bool) :
    ((loadAllTables r1 r2 r3 b).isSome
        ↔ (r1.isSome ∧ r2.isSome ∧ r3.isSome)) ∧
    (∀ f1 f2 f3 : Frame, r1 = some f1 → r2 = some f2 → r3 = some f3 →
      loadAllTables r1 r2 r3 false = some (reconcile f1 f2 f3)) := by
  constructor
  · cases r1 <;> cases r2 <;> cases r3 <;> simp [loadAllTables]
  · intro f1 f2 f3 h1 h2 h3
    subst h1
    subst h2
    subst h3
    rfl

/-- Witness for C7 at concrete frames. -/
theorem all_tables_all_or_nothing_witness :
    loadAllTables (some frameOrder) (some frameOr)
        (some frameTwoBookmakers) false
      = some (reconcile frameOrder frameOr frameTwoBookmakers) :=
  (all_tables_all_or_nothing (some frameOrder) (some frameOr)
      (some frameTwoBookmakers) false).2
    frameOrder frameOr frameTwoBookmakers rfl rfl rfl

/-- C8: after normalization, every date-like column present in the
frame holds in every row either a timezone-aware timestamp or the
explicit `NaT` marker — never a raw unparsed value — and the
conversion is total, however many values fail to parse. -/
theorem normalize_dates_clean (f : Frame) (c : String)
    (hc : c ∈ dateCols) (hcol : c ∈ f.cols) :
    ∀ r ∈ (normalize f).rows, cleanAt c r := by
  have hnf : normalize f
      = normalizeCol (normalizeCol (normalizeCol f "start_time")
          "bet_logged") "created_at" := rfl
  have h1 : (normalizeCol f "start_time").cols = f.cols :=
    normalizeCol_cols _ _
  have h2 : (normalizeCol (normalizeCol f "start_time") "bet_logged").cols
      = f.cols := by
    rw [normalizeCol_cols, h1]
  have hc3 : c = "start_time" ∨ c = "bet_logged" ∨ c = "created_at" := by
    simpa [dateCols] using hc
  rw [hnf]
  rcases hc3 with rfl | rfl | rfl
  · apply normalizeCol_preserves _ _ _ (by decide)
    apply normalizeCol_preserves _ _ _ (by decide)
    exact normalizeCol_clean f _ hcol
  · apply normalizeCol_preserves _ _ _ (by decide)
    exact normalizeCol_clean _ _ (h1.symm ▸ hcol)
  · exact normalizeCol_clean _ _ (h2.symm ▸ hcol)

/-- Witness for C8: in the normalized sample frame the unparseable
string became the `NaT` marker, a clean cell. -/
theorem normalize_dates_clean_witness :
    cleanAt "start_time" [("start_time", Value.NaT)] :=
  normalize_dates_clean frameDates "start_time" (by decide) (by decide)
    [("start_time", Value.NaT)] (by decide)

/-- C9 (counterexample): on a frame with an aware column holding one
past timestamp and one `NaT`, the cumulative-profit filter also drops
the `NaT` row, which is not strictly after the moment — the filter
does not exclude exactly the strictly-future rows. -/
theorem future_filter_excludes_nat_row :
    cumulativeFilter frameFilter "start_time" 10 = some [rowPast] ∧
    rowNaT ∈ frameFilter.rows ∧
    tsGT Value.NaT (Value.tsAware 10) = some false :=
  ⟨by decide, by decide, rfl⟩

/-- C9 (amended): for a frame whose chosen column is datetime-typed,
the current moment is coerced to the column awareness, every
comparison is defined (aware is never compared to naive and nothing
raises), and the filter excludes exactly the rows whose value is
strictly after the coerced moment or is the `NaT` marker; the sidebar
check selects exactly the strictly-future rows. -/
theorem future_filter_timezone_safe (f : Frame) (c : String) (now : Int)
    (aware : Bool) (hc : c ∈ f.cols) (ha : colAwareness f c = some aware) :
    cumulativeFilter f c now
        = some (f.rows.filter (keepLE c (coerceNow aware now))) ∧
    futureRecords f c now
        = some (f.rows.filter (keepGT c (coerceNow aware now))) ∧
    (∀ v ∈ colValues f c,
        tsLE v (coerceNow aware now) ≠ none ∧
        tsGT v (coerceNow aware now) ≠ none) ∧
    (∀ v ∈ colValues f c,
        ((tsLE v (coerceNow aware now)).getD false = false
          ↔ ((tsGT v (coerceNow aware now)).getD false = true
              ∨ v = Value.NaT))) := by
  have hall := colAwareness_all f c aware ha
  refine ⟨?_, ?_,
    fun v hv => ⟨tsLE_defined aware now v (hall v hv),
      tsGT_defined aware now v (hall v hv)⟩,
    fun v hv => keepLE_false_iff aware now v (hall v hv)⟩
  · unfold cumulativeFilter
    rw [if_pos hc, ha]
    exact filterRowsLE_eq c _ f.rows
      (fun r hr => tsLE_defined aware now _ (hall _ (colValues_mem f c r hr)))
  · unfold futureRecords
    rw [if_pos hc, ha]
    exact filterRowsGT_eq c _ f.rows
      (fun r hr => tsGT_defined aware now _ (hall _ (colValues_mem f c r hr)))

/-- Witness for C9 (amended) at a concrete aware frame. -/
theorem future_filter_timezone_safe_witness :
    cumulativeFilter frameFilter "start_time" 10
      = some (frameFilter.rows.filter
          (keepLE "start_time" (coerceNow true 10))) :=
  (future_filter_timezone_safe frameFilter "start_time" 10 true
    (by decide) (by decide)).1

/-- C10: `load_data` returns `None` exactly when pagination
accumulated zero rows — an error on the very first request and an
empty first page both land there, so the return value cannot tell an
empty table from a failed fetch — and every `Some` result holds at
least one row. -/
theorem load_data_none_iff_empty (tableName : String) (limit : Nat)
    (rs : List Response) :
    (loadData tableName limit rs = none ↔ fetchPages limit rs = []) ∧
    (∀ (status : Nat) (rest : List Response),
      fetchPages limit (Response.err status :: rest) = []) ∧
    (∀ rest : List Response,
      fetchPages limit (Response.ok [] :: rest) = []) ∧
    (∀ f : Frame, loadData tableName limit rs = some f → f.rows ≠ []) := by
  refine ⟨?_, fun status rest => rfl, fun rest => rfl, ?_⟩
  · unfold loadData
    by_cases hfe : fetchPages limit rs = []
    · simp [hfe]
    · simp [hfe, List.isEmpty_eq_false.mpr hfe]
  · intro f hf
    unfold loadData at hf
    split at hf
    · cases hf
    · rename_i hfe
      cases hf
      apply idPass_rows_ne_nil
      apply bkPass_rows_ne_nil
      intro hn
      have hlen := normalize_rows_length (mkFrame (fetchPages limit rs))
      rw [hn] at hlen
      apply hfe
      have : fetchPages limit rs = [] := by
        have h0 : (fetchPages limit rs).length = 0 := by
          simpa using hlen.symm
        exact List.length_eq_zero.mp h0
      simp [this]

/-- Witness for C10: a one-page successful fetch yields a frame with
one row. -/
theorem load_data_none_iff_empty_witness :
    ({ cols := ["id"], rows := [sampleRow] } : Frame).rows ≠ [] :=
  (load_data_none_iff_empty "betting_analytics" 1000
      [Response.ok [sampleRow]]).2.2.2
    { cols := ["id"], rows := [sampleRow] } (by decide)

end DcpDevBets
